import Mathlib

/-!
Verification of the `inject` dependency-injection registry (package `inject`,
file `inject.go`): a type-keyed value store with parent-chain fallback,
interface-satisfaction matching, struct-field population (`Apply`) and
callable invocation (`Invoke`).

Modelling conventions, matching the Go source:
* `Ty` is a semantic type descriptor (`reflect.Type`): an interface type, a
  pointer type, or some other concrete type; equality of descriptors is
  equality of types.
* `impl : Ty → Ty → Bool` is the reflection query `k.Implements(t)`; it is an
  abstract parameter of every operation that consults it.
* `Val` is a valid `reflect.Value`: a payload tagged with its runtime type
  (`reflect.TypeOf`). The invalid zero `reflect.Value` is the not-found
  sentinel of `Get` and is represented by `Option.none`; `Option Val` is a
  `reflect.Value` that may be invalid, and `v.isSome` is `v.IsValid()`.
* The store `values map[reflect.Type]reflect.Value` is an association list
  `List (Ty × Val)`; Go map insertion `values[t] = v` is `setEntry`, map
  read is `lookupEntry`, and the `range` scan of `Get` walks the list in
  order (Go iteration order is unspecified; every claim proved below about
  the scan is order-insensitive or conditions on uniqueness).
* The struct handed to `Apply` is its field list; each field carries the
  declared type `f.Type()`, the `inject` tag (`Tag.Lookup` result, `none`
  when absent), the current value and the `CanSet` capability.
-/

/-- A semantic type descriptor: `reflect.Type`. -/
inductive Ty where
  | iface (id : Nat)
  | ptr (elem : Ty)
  | base (id : Nat)
deriving DecidableEq

/-- `t.Kind() == reflect.Interface`. -/
def Ty.isInterface : Ty → Bool
  | .iface _ => true
  | _ => false

/-- A valid `reflect.Value`: a payload together with its runtime type. -/
structure Val where
  ty : Ty
  data : Nat
deriving DecidableEq

/-- Go map read `values[t]`: the entry stored under key `t`, if any. -/
def lookupEntry (vs : List (Ty × Val)) (t : Ty) : Option Val :=
  match vs with
  | [] => none
  | (k, w) :: rest => if k = t then some w else lookupEntry rest t

/-- Go map write `values[t] = v`: replaces the entry under `t`, or appends. -/
def setEntry (vs : List (Ty × Val)) (t : Ty) (v : Val) : List (Ty × Val) :=
  match vs with
  | [] => [(t, v)]
  | (k, w) :: rest => if k = t then (t, v) :: rest else (k, w) :: setEntry rest t v

/-- The interface scan of `Get`: `for k, v := range inj.values`, returning the
first stored value whose key implements `t` (`k.Implements(t)`). -/
def findImpl (impl : Ty → Ty → Bool) (vs : List (Ty × Val)) (t : Ty) : Option Val :=
  match vs with
  | [] => none
  | (k, w) :: rest => if impl k t then some w else findImpl impl rest t

/-- The `injector` struct: a store plus at most one parent injector
(`parent Injector`, nil for a root). -/
inductive Injector where
  | root (values : List (Ty × Val))
  | child (values : List (Ty × Val)) (parent : Injector)

/-- The local store of an injector. -/
def Injector.values : Injector → List (Ty × Val)
  | .root vs => vs
  | .child vs _ => vs

/-- `New()`: an injector with an empty store and no parent. -/
def Injector.new : Injector := .root []

/-- `Get`: exact map read; if invalid and `t` is an interface, the implements
scan of the local store; if still invalid and a parent is set, delegate to the
parent. Returns the invalid value (`none`) when nothing matches. -/
def Injector.get (impl : Ty → Ty → Bool) : Injector → Ty → Option Val
  | .root vs, t =>
    match lookupEntry vs t with
    | some v => some v
    | none => if t.isInterface then findImpl impl vs t else none
  | .child vs p, t =>
    match lookupEntry vs t with
    | some v => some v
    | none =>
      match (if t.isInterface then findImpl impl vs t else none) with
      | some v => some v
      | none => p.get impl t

/-- `Get` in state-passing form: the same control flow as `Injector.get`, but
threading the injector (its store and its whole parent chain) through every
step, so that mutation, if the source performed any, would be visible in the
returned injector. -/
def Injector.getSt (impl : Ty → Ty → Bool) : Injector → Ty → Option Val × Injector
  | .root vs, t =>
    match lookupEntry vs t with
    | some v => (some v, .root vs)
    | none => ((if t.isInterface then findImpl impl vs t else none), .root vs)
  | .child vs p, t =>
    match lookupEntry vs t with
    | some v => (some v, .child vs p)
    | none =>
      match (if t.isInterface then findImpl impl vs t else none) with
      | some v => (some v, .child vs p)
      | none =>
        ((p.getSt impl t).1, .child vs (p.getSt impl t).2)

/-- `Set(typ, val)`: `inj.values[typ] = val`. -/
def Injector.set : Injector → Ty → Val → Injector
  | .root vs, t, v => .root (setEntry vs t v)
  | .child vs p, t, v => .child (setEntry vs t v) p

/-- `Map(val)`: register `val` under `reflect.TypeOf(val)`. -/
def Injector.map (inj : Injector) (v : Val) : Injector :=
  inj.set v.ty v

/-- Unwrap pointer indirections: `for t.Kind() == reflect.Ptr { t = t.Elem() }`. -/
def unwrapPtr : Ty → Ty
  | .ptr t => unwrapPtr t
  | t => t

/-- `InterfaceOf(value)`: unwrap pointers and require an interface type;
`none` models the panic on a non-interface hint. -/
def InterfaceOf (t : Ty) : Option Ty :=
  if (unwrapPtr t).isInterface then some (unwrapPtr t) else none

/-- `MapTo(val, ifacePtr)`: register `val` under `InterfaceOf(ifacePtr)`;
`none` models the panic when the hint is not a pointer to an interface. -/
def Injector.mapTo (inj : Injector) (v : Val) (hint : Ty) : Option Injector :=
  match InterfaceOf hint with
  | none => none
  | some i => some (inj.set i v)

/-- `SetParent(parent)`: replace the parent reference. -/
def Injector.setParent : Injector → Injector → Injector
  | .root vs, p => .child vs p
  | .child vs _, p => .child vs p

/-- One struct field, as `Apply` sees it: declared type `f.Type()`, the
`inject` tag (`none` when `Tag.Lookup` finds none), current value, `CanSet`. -/
structure StructField where
  ty : Ty
  tag : Option String
  value : Val
  canSet : Bool
deriving DecidableEq

/-- Outcome of `Apply` on a field list: normal return with the resulting
fields, an error naming an unresolved type, or a run-time panic from calling
`f.Set` with the invalid `reflect.Value` (`crash`, tagged with the field type
whose resolution failed). -/
inductive ApplyResult where
  | ok (fields : List StructField)
  | err (t : Ty)
  | crash (t : Ty)
deriving DecidableEq

/-- Prepend a processed field to a normal result; errors and panics abort. -/
def consField (f : StructField) : ApplyResult → ApplyResult
  | .ok fs => .ok (f :: fs)
  | .err t => .err t
  | .crash t => .crash t

/-- The field loop of `Apply`: for each field, if `CanSet` and the `inject`
tag is present, resolve the field type with `Get`; on an invalid result return
the error unless the tag is the skip marker `"-"`, in which case control falls
through to `f.Set(v)` with the invalid value, a reflection panic (`crash`);
on a valid result assign it. Untagged or unsettable fields are untouched. -/
def Injector.apply (impl : Ty → Ty → Bool) (inj : Injector) : List StructField → ApplyResult
  | [] => .ok []
  | f :: rest =>
    if f.canSet then
      match f.tag with
      | some tv =>
        match inj.get impl f.ty with
        | some v => consField { f with value := v } (inj.apply impl rest)
        | none =>
          if tv ≠ "-" then .err f.ty
          else .crash f.ty
      | none => consField f (inj.apply impl rest)
    else consField f (inj.apply impl rest)

/-- A callable, as `Invoke` sees it: the declared parameter type list
(`t.In(i)` in order) and the function body mapping received arguments to the
ordered result list of the call. -/
structure Callable where
  params : List Ty
  body : List Val → List Val

/-- The argument loop of `Invoke`: resolve each parameter type in declaration
order with `Get`; the first invalid resolution aborts with an error naming the
unmet type. -/
def resolveParams (impl : Ty → Ty → Bool) (inj : Injector) : List Ty → Except Ty (List Val)
  | [] => .ok []
  | t :: rest =>
    match inj.get impl t with
    | none => .error t
    | some v =>
      match resolveParams impl inj rest with
      | .error u => .error u
      | .ok vs => .ok (v :: vs)

/-- `Invoke(f)`: resolve all parameters, then call the function with the
resolved values positionally and return its results unmodified. -/
def Injector.invoke (impl : Ty → Ty → Bool) (inj : Injector) (c : Callable) :
    Except Ty (List Val) :=
  match resolveParams impl inj c.params with
  | .error t => .error t
  | .ok vs => .ok (c.body vs)

/-- Build a parent chain above `anc`: each list in `levels` becomes one child
injector, nearest first. -/
def buildChain (anc : Injector) : List (List (Ty × Val)) → Injector
  | [] => anc
  | vs :: rest => .child vs (buildChain anc rest)

/-- A local store resolves nothing for `t`: no exact entry, and when `t` is an
interface no stored key implements it. -/
def levelMiss (impl : Ty → Ty → Bool) (t : Ty) (vs : List (Ty × Val)) : Bool :=
  (lookupEntry vs t).isNone && (!t.isInterface || (findImpl impl vs t).isNone)

theorem lookupEntry_setEntry_self (vs : List (Ty × Val)) (t : Ty) (v : Val) :
    lookupEntry (setEntry vs t v) t = some v := by
  induction vs with
  | nil => simp [setEntry, lookupEntry]
  | cons hd tl ih =>
    obtain ⟨k, w⟩ := hd
    by_cases h : k = t
    · simp [setEntry, h, lookupEntry]
    · simp [setEntry, h, lookupEntry, ih]

theorem mem_keys_setEntry (vs : List (Ty × Val)) (t : Ty) (v : Val) (x : Ty) :
    x ∈ (setEntry vs t v).map Prod.fst ↔ x ∈ vs.map Prod.fst ∨ x = t := by
  induction vs with
  | nil => simp [setEntry]
  | cons hd tl ih =>
    obtain ⟨k, w⟩ := hd
    by_cases h : k = t
    · subst h
      simp [setEntry]
      tauto
    · simp [setEntry, h, ih]
      tauto

theorem nodup_keys_setEntry (vs : List (Ty × Val)) (t : Ty) (v : Val)
    (h : (vs.map Prod.fst).Nodup) : ((setEntry vs t v).map Prod.fst).Nodup := by
  induction vs with
  | nil => simp [setEntry]
  | cons hd tl ih =>
    obtain ⟨k, w⟩ := hd
    rw [List.map_cons, List.nodup_cons] at h
    by_cases hk : k = t
    · subst hk
      have hse : setEntry ((k, w) :: tl) k v = (k, v) :: tl := by simp [setEntry]
      rw [hse, List.map_cons, List.nodup_cons]
      exact h
    · simp only [setEntry, if_neg hk]
      rw [List.map_cons, List.nodup_cons]
      constructor
      · rw [mem_keys_setEntry, not_or]
        exact ⟨h.1, hk⟩
      · exact ih h.2

theorem findImpl_mem (impl : Ty → Ty → Bool) (vs : List (Ty × Val)) (t : Ty) (v : Val)
    (h : findImpl impl vs t = some v) : ∃ k, (k, v) ∈ vs ∧ impl k t = true := by
  induction vs with
  | nil => simp [findImpl] at h
  | cons hd tl ih =>
    obtain ⟨k, w⟩ := hd
    by_cases hi : impl k t
    · simp [findImpl, hi] at h
      exact ⟨k, by simp [h], hi⟩
    · simp [findImpl, hi] at h
      obtain ⟨k2, hm, hi2⟩ := ih h
      exact ⟨k2, by simp [hm], hi2⟩

theorem findImpl_isSome_of_mem (impl : Ty → Ty → Bool) (vs : List (Ty × Val)) (t : Ty)
    (k : Ty) (v : Val) (hm : (k, v) ∈ vs) (hi : impl k t = true) :
    (findImpl impl vs t).isSome = true := by
  induction vs with
  | nil => simp at hm
  | cons hd tl ih =>
    obtain ⟨k2, w⟩ := hd
    by_cases h2 : impl k2 t
    · simp [findImpl, h2]
    · rcases List.mem_cons.mp hm with hh | ht
      · rw [Prod.mk.injEq] at hh
        exact absurd (hh.1 ▸ hi) (by simp [h2])
      · simp [findImpl, h2]
        exact ih ht

theorem findImpl_unique (impl : Ty → Ty → Bool) (vs : List (Ty × Val)) (t : Ty)
    (k0 : Ty) (v0 : Val) (hnd : (vs.map Prod.fst).Nodup) (hm : (k0, v0) ∈ vs)
    (hi : impl k0 t = true) (huniq : ∀ p ∈ vs, impl p.1 t = true → p.1 = k0) :
    findImpl impl vs t = some v0 := by
  induction vs with
  | nil => simp at hm
  | cons hd tl ih =>
    obtain ⟨k, w⟩ := hd
    rw [List.map_cons, List.nodup_cons] at hnd
    rcases List.mem_cons.mp hm with hh | ht
    · rw [Prod.mk.injEq] at hh
      obtain ⟨hk, hv⟩ := hh
      subst hk hv
      simp [findImpl, hi]
    · have hk : k ≠ k0 := by
        intro he
        apply hnd.1
        rw [he]
        exact List.mem_map.mpr ⟨(k0, v0), ht, rfl⟩
      have hkimp : impl k t = false := by
        by_contra hc
        exact hk (huniq (k, w) (by simp) (by simpa using hc))
      simp [findImpl, hkimp]
      exact ih hnd.2 ht fun p hp => huniq p (by simp [hp])

theorem get_eq_of_lookup (impl : Ty → Ty → Bool) (inj : Injector) (t : Ty) (v : Val)
    (h : lookupEntry inj.values t = some v) : inj.get impl t = some v := by
  cases inj with
  | root vs => simp [Injector.values] at h; simp [Injector.get, h]
  | child vs p => simp [Injector.values] at h; simp [Injector.get, h]

theorem get_eq_of_scan (impl : Ty → Ty → Bool) (inj : Injector) (t : Ty) (v : Val)
    (hl : lookupEntry inj.values t = none) (hi : t.isInterface = true)
    (hs : findImpl impl inj.values t = some v) : inj.get impl t = some v := by
  cases inj with
  | root vs =>
    simp [Injector.values] at hl hs
    simp [Injector.get, hl, hi, hs]
  | child vs p =>
    simp [Injector.values] at hl hs
    simp [Injector.get, hl, hi, hs]

theorem get_child_of_levelMiss (impl : Ty → Ty → Bool) (vs : List (Ty × Val))
    (p : Injector) (t : Ty) (h : levelMiss impl t vs = true) :
    (Injector.child vs p).get impl t = p.get impl t := by
  simp [levelMiss, Bool.and_eq_true, Bool.or_eq_true, Option.isNone_iff_eq_none] at h
  obtain ⟨hl, hs⟩ := h
  rcases hs with hni | hsn
  · simp [Injector.get, hl, Bool.not_eq_true] at hni ⊢
    simp [hni]
  · cases hif : t.isInterface <;> simp [Injector.get, hl, hif, hsn]

theorem get_buildChain_of_miss (impl : Ty → Ty → Bool) (t : Ty) (anc : Injector)
    (levels : List (List (Ty × Val))) (h : ∀ vs ∈ levels, levelMiss impl t vs = true) :
    (buildChain anc levels).get impl t = anc.get impl t := by
  induction levels with
  | nil => rfl
  | cons hd tl ih =>
    rw [buildChain, get_child_of_levelMiss impl hd _ t (h hd (by simp))]
    exact ih fun vs hv => h vs (by simp [hv])

theorem lookupEntry_values_set (inj : Injector) (t : Ty) (v : Val) :
    lookupEntry (inj.set t v).values t = some v := by
  cases inj <;> simp [Injector.set, Injector.values, lookupEntry_setEntry_self]

theorem resolveParams_error_of_miss (impl : Ty → Ty → Bool) (inj : Injector)
    (params : List Ty) (h : ∃ t ∈ params, inj.get impl t = none) :
    ∃ t ∈ params, inj.get impl t = none ∧ resolveParams impl inj params = .error t := by
  induction params with
  | nil => simp at h
  | cons t0 rest ih =>
    cases hg : inj.get impl t0 with
    | none => exact ⟨t0, by simp, hg, by simp [resolveParams, hg]⟩
    | some v =>
      have hex : ∃ u ∈ rest, inj.get impl u = none := by
        obtain ⟨t, ht, hn⟩ := h
        rcases List.mem_cons.mp ht with he | hm
        · subst he
          rw [hg] at hn
          exact absurd hn (by simp)
        · exact ⟨t, hm, hn⟩
      obtain ⟨u, hu, hun, hre⟩ := ih hex
      refine ⟨u, by simp [hu], hun, ?_⟩
      simp [resolveParams, hg, hre]

theorem resolveParams_ok_of_all (impl : Ty → Ty → Bool) (inj : Injector)
    (params : List Ty) (h : ∀ t ∈ params, (inj.get impl t).isSome = true) :
    ∃ vs, List.Forall₂ (fun t v => inj.get impl t = some v) params vs ∧
      resolveParams impl inj params = .ok vs := by
  induction params with
  | nil => exact ⟨[], List.Forall₂.nil, rfl⟩
  | cons t0 rest ih =>
    obtain ⟨v, hv⟩ := Option.isSome_iff_exists.mp (h t0 (by simp))
    obtain ⟨vs, h2, hre⟩ := ih fun t ht => h t (by simp [ht])
    refine ⟨v :: vs, List.Forall₂.cons hv h2, ?_⟩
    simp [resolveParams, hv, hre]

/-- Claim C1: the spec says `Apply` on a struct whose skip-marked field
(`inject` tag `"-"`) has an unregistered type succeeds, returning no error and
leaving the field at its default. The code instead reaches `f.Set(v)` with the
invalid `reflect.Value` and panics: evaluated on a fresh injector and a single
settable field tagged `"-"` of an unregistered interface type, the field loop
of `Apply` ends in the reflection panic, not in a normal return. -/
theorem apply_skip_unregistered_crashes :
    Injector.apply (fun _ _ => false) Injector.new
      [⟨Ty.iface 0, some "-", ⟨Ty.iface 0, 0⟩, true⟩] = ApplyResult.crash (Ty.iface 0) := by
  decide

/-- Claim C2, counterexample: a settable field tagged `"-"` whose interface
type is registered is not left unchanged — `Apply` succeeds and overwrites the
field with the registered value, which differs from the original value. -/
theorem apply_skip_tagged_assigned_cex :
    Injector.apply (fun _ _ => false) (Injector.root [(Ty.iface 1, ⟨Ty.base 0, 2⟩)])
      [⟨Ty.iface 1, some "-", ⟨Ty.iface 1, 0⟩, true⟩]
      = ApplyResult.ok [⟨Ty.iface 1, some "-", ⟨Ty.base 0, 2⟩, true⟩]
    ∧ (⟨Ty.base 0, 2⟩ : Val) ≠ ⟨Ty.iface 1, 0⟩ := by
  exact ⟨by decide, by decide⟩

/-- Claim C2, amended: the skip marker `"-"` only exempts the field from the
resolution error; when `Get` resolves the field type, `Apply` assigns the
resolved value to the skip-marked field like any other tagged field. -/
theorem apply_skip_tagged_assigns (impl : Ty → Ty → Bool) (inj : Injector)
    (f : StructField) (rest : List StructField) (gs : List StructField) (v : Val)
    (hc : f.canSet = true) (ht : f.tag = some "-")
    (hg : inj.get impl f.ty = some v)
    (hr : inj.apply impl rest = ApplyResult.ok gs) :
    inj.apply impl (f :: rest) = ApplyResult.ok ({ f with value := v } :: gs) := by
  simp [Injector.apply, hc, ht, hg, hr, consField]

/-- Witness for the amended claim C2 at a concrete input: the skip-marked
field of a registered interface type ends up holding the registered value. -/
theorem apply_skip_tagged_assigns_witness :
    ((⟨Ty.iface 1, some "-", ⟨Ty.iface 1, 0⟩, true⟩ : StructField).canSet = true
      ∧ (⟨Ty.iface 1, some "-", ⟨Ty.iface 1, 0⟩, true⟩ : StructField).tag = some "-"
      ∧ (Injector.root [(Ty.iface 1, ⟨Ty.base 0, 2⟩)]).get (fun _ _ => false)
          (⟨Ty.iface 1, some "-", ⟨Ty.iface 1, 0⟩, true⟩ : StructField).ty = some ⟨Ty.base 0, 2⟩)
    ∧ Injector.apply (fun _ _ => false) (Injector.root [(Ty.iface 1, ⟨Ty.base 0, 2⟩)])
        [⟨Ty.iface 1, some "-", ⟨Ty.iface 1, 0⟩, true⟩]
      = ApplyResult.ok [⟨Ty.iface 1, some "-", ⟨Ty.base 0, 2⟩, true⟩] := by
  refine ⟨⟨by decide, by decide, by decide⟩, ?_⟩
  exact apply_skip_tagged_assigns (fun _ _ => false)
    (Injector.root [(Ty.iface 1, ⟨Ty.base 0, 2⟩)])
    ⟨Ty.iface 1, some "-", ⟨Ty.iface 1, 0⟩, true⟩ [] [] ⟨Ty.base 0, 2⟩
    (by decide) (by decide) (by decide) (by decide)

/-- Claim C3: when some declared parameter type of a callable does not
resolve, `Invoke` returns an error naming an unmet parameter type and the
callable body is never consulted — the result is the same error for every
possible body. -/
theorem invoke_unresolved_no_call (impl : Ty → Ty → Bool) (inj : Injector)
    (params : List Ty) (h : ∃ t ∈ params, inj.get impl t = none) :
    ∃ t ∈ params, inj.get impl t = none ∧
      ∀ g : List Val → List Val,
        inj.invoke impl ⟨params, g⟩ = Except.error t := by
  obtain ⟨t, ht, hn, hr⟩ := resolveParams_error_of_miss impl inj params h
  exact ⟨t, ht, hn, fun g => by simp [Injector.invoke, hr]⟩

/-- Witness for claim C3: with an empty injector and one parameter of an
unregistered type, `Invoke` errors and two different bodies give the same
outcome. -/
theorem invoke_unresolved_no_call_witness :
    (∃ t ∈ [Ty.base 0], Injector.new.get (fun _ _ => false) t = none)
    ∧ ∃ t ∈ [Ty.base 0], Injector.new.get (fun _ _ => false) t = none ∧
        ∀ g : List Val → List Val,
          Injector.new.invoke (fun _ _ => false) ⟨[Ty.base 0], g⟩ = Except.error t := by
  refine ⟨⟨Ty.base 0, by decide, by decide⟩, ?_⟩
  exact invoke_unresolved_no_call (fun _ _ => false) Injector.new [Ty.base 0]
    ⟨Ty.base 0, by decide, by decide⟩

/-- Claim C8: when every declared parameter type of a callable resolves,
`Invoke` resolves the parameters positionally in declaration order, calls the
body once on exactly that argument list, and returns the body results
unmodified as the success value. -/
theorem invoke_all_resolved (impl : Ty → Ty → Bool) (inj : Injector)
    (params : List Ty) (g : List Val → List Val)
    (h : ∀ t ∈ params, (inj.get impl t).isSome = true) :
    ∃ vs, List.Forall₂ (fun t v => inj.get impl t = some v) params vs ∧
      inj.invoke impl ⟨params, g⟩ = Except.ok (g vs) := by
  obtain ⟨vs, h2, hr⟩ := resolveParams_ok_of_all impl inj params h
  exact ⟨vs, h2, by simp [Injector.invoke, hr]⟩

/-- Witness for claim C8, after the spec example: with a string-like value
registered under its own type, invoking a one-parameter callable returns the
callable result computed from the registered value. -/
theorem invoke_all_resolved_witness :
    (∀ t ∈ [Ty.base 0],
      ((Injector.root [(Ty.base 0, ⟨Ty.base 0, 1⟩)]).get (fun _ _ => false) t).isSome = true)
    ∧ ∃ vs, List.Forall₂
        (fun t v => (Injector.root [(Ty.base 0, ⟨Ty.base 0, 1⟩)]).get (fun _ _ => false) t = some v)
        [Ty.base 0] vs ∧
      (Injector.root [(Ty.base 0, ⟨Ty.base 0, 1⟩)]).invoke (fun _ _ => false)
        ⟨[Ty.base 0], fun ws => ws ++ [⟨Ty.base 0, 9⟩]⟩ = Except.ok (vs ++ [⟨Ty.base 0, 9⟩]) := by
  refine ⟨by decide, ?_⟩
  exact invoke_all_resolved (fun _ _ => false) (Injector.root [(Ty.base 0, ⟨Ty.base 0, 1⟩)])
    [Ty.base 0] (fun ws => ws ++ [⟨Ty.base 0, 9⟩]) (by decide)

/-- Claim C4: `Get` delegates to the parent whenever the local store has no
exact entry and no interface match, transitively across an arbitrarily long
chain of such misses; conversely a local exact entry, or a local interface
match when no exact entry exists, is returned regardless of what any ancestor
holds. -/
theorem get_parent_chain_and_shadowing (impl : Ty → Ty → Bool) (t : Ty) :
    (∀ (levels : List (List (Ty × Val))) (anc : Injector),
        (∀ vs ∈ levels, levelMiss impl t vs = true) →
        (buildChain anc levels).get impl t = anc.get impl t)
    ∧ (∀ (vs : List (Ty × Val)) (p : Injector) (v : Val),
        lookupEntry vs t = some v → (Injector.child vs p).get impl t = some v)
    ∧ (∀ (vs : List (Ty × Val)) (p : Injector) (v : Val),
        lookupEntry vs t = none → t.isInterface = true → findImpl impl vs t = some v →
        (Injector.child vs p).get impl t = some v) := by
  refine ⟨fun levels anc h => get_buildChain_of_miss impl t anc levels h,
    fun vs p v h => get_eq_of_lookup impl (Injector.child vs p) t v h,
    fun vs p v hl hi hs => get_eq_of_scan impl (Injector.child vs p) t v hl hi hs⟩

/-- Witness for claim C4: a two-level all-miss chain above a grandparent that
holds the entry resolves to the grandparent value; a child entry shadows a
different parent entry; a child interface match shadows a parent entry. -/
theorem get_parent_chain_and_shadowing_witness :
    ((∀ vs ∈ [([] : List (Ty × Val)), [(Ty.base 1, ⟨Ty.base 1, 5⟩)]],
        levelMiss (fun _ _ => false) (Ty.base 0) vs = true)
      ∧ (buildChain (Injector.root [(Ty.base 0, ⟨Ty.base 0, 7⟩)])
            [[], [(Ty.base 1, ⟨Ty.base 1, 5⟩)]]).get (fun _ _ => false) (Ty.base 0)
        = (Injector.root [(Ty.base 0, ⟨Ty.base 0, 7⟩)]).get (fun _ _ => false) (Ty.base 0))
    ∧ (lookupEntry [(Ty.base 0, ⟨Ty.base 0, 1⟩)] (Ty.base 0) = some ⟨Ty.base 0, 1⟩
      ∧ (Injector.child [(Ty.base 0, ⟨Ty.base 0, 1⟩)]
            (Injector.root [(Ty.base 0, ⟨Ty.base 0, 2⟩)])).get (fun _ _ => false) (Ty.base 0)
        = some ⟨Ty.base 0, 1⟩)
    ∧ ((Injector.child [(Ty.base 2, ⟨Ty.base 2, 3⟩)]
            (Injector.root [(Ty.iface 0, ⟨Ty.base 9, 9⟩)])).get (fun _ _ => true) (Ty.iface 0)
        = some ⟨Ty.base 2, 3⟩) := by
  refine ⟨⟨by decide, (get_parent_chain_and_shadowing (fun _ _ => false) (Ty.base 0)).1
      [[], [(Ty.base 1, ⟨Ty.base 1, 5⟩)]] (Injector.root [(Ty.base 0, ⟨Ty.base 0, 7⟩)])
      (by decide)⟩,
    ⟨by decide, (get_parent_chain_and_shadowing (fun _ _ => false) (Ty.base 0)).2.1
      [(Ty.base 0, ⟨Ty.base 0, 1⟩)] (Injector.root [(Ty.base 0, ⟨Ty.base 0, 2⟩)])
      ⟨Ty.base 0, 1⟩ (by decide)⟩,
    (get_parent_chain_and_shadowing (fun _ _ => true) (Ty.iface 0)).2.2
      [(Ty.base 2, ⟨Ty.base 2, 3⟩)] (Injector.root [(Ty.iface 0, ⟨Ty.base 9, 9⟩)])
      ⟨Ty.base 2, 3⟩ (by decide) (by decide) (by decide)⟩

/-- Claim C5: for an interface type with no exact local entry, when some
stored key implements it, `Get` returns the value of some stored entry whose
key implements it; and when exactly one stored key implements it and there is
no parent, `Get` returns exactly the value stored under that key. -/
theorem get_interface_scan (impl : Ty → Ty → Bool) (t : Ty) (hi : t.isInterface = true) :
    (∀ (inj : Injector), lookupEntry inj.values t = none →
        (∃ p ∈ inj.values, impl p.1 t = true) →
        ∃ p ∈ inj.values, impl p.1 t = true ∧ inj.get impl t = some p.2)
    ∧ (∀ (vs : List (Ty × Val)) (k0 : Ty) (v0 : Val),
        lookupEntry vs t = none → (vs.map Prod.fst).Nodup → (k0, v0) ∈ vs →
        impl k0 t = true → (∀ p ∈ vs, impl p.1 t = true → p.1 = k0) →
        (Injector.root vs).get impl t = some v0) := by
  constructor
  · intro inj hl hex
    obtain ⟨⟨k1, v1⟩, hp, hi2⟩ := hex
    have hsome := findImpl_isSome_of_mem impl inj.values t k1 v1 hp hi2
    obtain ⟨v, hv⟩ := Option.isSome_iff_exists.mp hsome
    obtain ⟨k, hkm, hki⟩ := findImpl_mem impl inj.values t v hv
    exact ⟨(k, v), hkm, hki, get_eq_of_scan impl inj t v hl hi hv⟩
  · intro vs k0 v0 hl hnd hm hik huniq
    have hf := findImpl_unique impl vs t k0 v0 hnd hm hik huniq
    exact get_eq_of_scan impl (Injector.root vs) t v0 hl hi hf

/-- Witness for claim C5: a store holding one concrete implementer of a
requested interface yields a valid implementing entry, and the unique
implementer is returned exactly. -/
theorem get_interface_scan_witness :
    (lookupEntry [(Ty.base 1, (⟨Ty.base 1, 4⟩ : Val))] (Ty.iface 0) = none
      ∧ ∃ p ∈ [(Ty.base 1, (⟨Ty.base 1, 4⟩ : Val))],
          (fun _ _ => true : Ty → Ty → Bool) p.1 (Ty.iface 0) = true ∧
          (Injector.root [(Ty.base 1, ⟨Ty.base 1, 4⟩)]).get (fun _ _ => true) (Ty.iface 0)
            = some p.2)
    ∧ (Injector.root [(Ty.base 1, ⟨Ty.base 1, 4⟩)]).get (fun _ _ => true) (Ty.iface 0)
        = some ⟨Ty.base 1, 4⟩ := by
  refine ⟨⟨by decide, (get_interface_scan (fun _ _ => true) (Ty.iface 0) (by decide)).1
      (Injector.root [(Ty.base 1, ⟨Ty.base 1, 4⟩)]) (by decide)
      ⟨(Ty.base 1, ⟨Ty.base 1, 4⟩), by decide, by decide⟩⟩, ?_⟩
  exact (get_interface_scan (fun _ _ => true) (Ty.iface 0) (by decide)).2
    [(Ty.base 1, ⟨Ty.base 1, 4⟩)] (Ty.base 1) ⟨Ty.base 1, 4⟩
    (by decide) (by decide) (by decide) (by decide) (by decide)

/-- Claim C6: immediately after `Set(t, v)`, `Get(t)` hits the exact entry and
returns precisely `v`, for every implements relation and every injector (with
or without a parent) — neither the interface scan nor parent delegation plays
a part. -/
theorem get_after_set (impl : Ty → Ty → Bool) (inj : Injector) (t : Ty) (v : Val) :
    lookupEntry (inj.set t v).values t = some v ∧ (inj.set t v).get impl t = some v := by
  have h := lookupEntry_values_set inj t v
  exact ⟨h, get_eq_of_lookup impl _ t v h⟩

/-- Claim C7: re-registration overwrites — after two `Set` calls on the same
descriptor, `Get` returns the second value; and a store whose keys are unique
keeps unique keys under any further `Set`, so no two entries for one
descriptor ever coexist. -/
theorem set_set_overwrites (impl : Ty → Ty → Bool) (inj : Injector) (t : Ty) (v1 v2 : Val) :
    ((inj.set t v1).set t v2).get impl t = some v2
    ∧ ∀ (vs : List (Ty × Val)) (u : Ty) (w : Val),
        (vs.map Prod.fst).Nodup → ((setEntry vs u w).map Prod.fst).Nodup := by
  constructor
  · exact get_eq_of_lookup impl _ t v2 (lookupEntry_values_set (inj.set t v1) t v2)
  · exact fun vs u w h => nodup_keys_setEntry vs u w h

/-- Witness for claim C7: overwriting a concrete entry returns the second
value, and a concrete unique-keyed store stays unique-keyed after a `Set`. -/
theorem set_set_overwrites_witness :
    ((Injector.new.set (Ty.base 0) ⟨Ty.base 0, 1⟩).set (Ty.base 0) ⟨Ty.base 0, 2⟩).get
        (fun _ _ => false) (Ty.base 0) = some ⟨Ty.base 0, 2⟩
    ∧ ([( Ty.base 0, (⟨Ty.base 0, 1⟩ : Val))].map Prod.fst).Nodup
    ∧ ((setEntry [(Ty.base 0, ⟨Ty.base 0, 1⟩)] (Ty.base 1) ⟨Ty.base 1, 3⟩).map Prod.fst).Nodup := by
  refine ⟨(set_set_overwrites (fun _ _ => false) Injector.new (Ty.base 0)
      ⟨Ty.base 0, 1⟩ ⟨Ty.base 0, 2⟩).1, by decide, ?_⟩
  exact (set_set_overwrites (fun _ _ => false) Injector.new (Ty.base 0)
      ⟨Ty.base 0, 1⟩ ⟨Ty.base 0, 2⟩).2
    [(Ty.base 0, ⟨Ty.base 0, 1⟩)] (Ty.base 1) ⟨Ty.base 1, 3⟩ (by decide)

/-- Claim C9: a `MapTo` hint that does not unwrap to an interface type makes
`InterfaceOf` (and hence `MapTo`) abort with the caller-contract panic; a hint
unwrapping to interface `I` makes `MapTo` register the value under `I`, after
which `Get(I)` returns it. -/
theorem mapTo_interface_contract (hint : Ty) :
    ((unwrapPtr hint).isInterface = false →
      InterfaceOf hint = none ∧ ∀ (inj : Injector) (v : Val), inj.mapTo v hint = none)
    ∧ ((unwrapPtr hint).isInterface = true →
      ∀ (impl : Ty → Ty → Bool) (inj : Injector) (v : Val),
        ∃ out, inj.mapTo v hint = some out ∧ out.get impl (unwrapPtr hint) = some v) := by
  constructor
  · intro h
    have hio : InterfaceOf hint = none := by simp [InterfaceOf, h]
    exact ⟨hio, fun inj v => by simp [Injector.mapTo, hio]⟩
  · intro h impl inj v
    have hio : InterfaceOf hint = some (unwrapPtr hint) := by simp [InterfaceOf, h]
    refine ⟨inj.set (unwrapPtr hint) v, by simp [Injector.mapTo, hio], ?_⟩
    exact get_eq_of_lookup impl _ _ v (lookupEntry_values_set inj (unwrapPtr hint) v)

/-- Witness for claim C9: a pointer-to-concrete hint aborts `MapTo`, while a
pointer-to-interface hint registers the value so that `Get` on the interface
returns it. -/
theorem mapTo_interface_contract_witness :
    ((unwrapPtr (Ty.ptr (Ty.base 0))).isInterface = false
      ∧ Injector.new.mapTo ⟨Ty.base 0, 1⟩ (Ty.ptr (Ty.base 0)) = none)
    ∧ ((unwrapPtr (Ty.ptr (Ty.iface 0))).isInterface = true
      ∧ ∃ out, Injector.new.mapTo ⟨Ty.base 0, 1⟩ (Ty.ptr (Ty.iface 0)) = some out
          ∧ out.get (fun _ _ => false) (unwrapPtr (Ty.ptr (Ty.iface 0))) = some ⟨Ty.base 0, 1⟩) := by
  refine ⟨⟨by decide, ((mapTo_interface_contract (Ty.ptr (Ty.base 0))).1 (by decide)).2
      Injector.new ⟨Ty.base 0, 1⟩⟩,
    by decide, (mapTo_interface_contract (Ty.ptr (Ty.iface 0))).2 (by decide)
      (fun _ _ => false) Injector.new ⟨Ty.base 0, 1⟩⟩

/-- Claim C10: `Get` is a pure read — the state-passing rendering of `Get`
returns the injector (store and whole parent chain) unchanged, and its value
component agrees with the functional `Get`; in particular an interface or
parent hit is never cached as a new local entry. -/
theorem get_pure_read (impl : Ty → Ty → Bool) (inj : Injector) (t : Ty) :
    (inj.getSt impl t).2 = inj ∧ (inj.getSt impl t).1 = inj.get impl t := by
  induction inj with
  | root vs =>
    cases hl : lookupEntry vs t <;> simp [Injector.getSt, Injector.get, hl]
  | child vs p ih =>
    cases hl : lookupEntry vs t with
    | some v => simp [Injector.getSt, Injector.get, hl]
    | none =>
      cases hs : (if t.isInterface then findImpl impl vs t else none) with
      | some v => simp [Injector.getSt, Injector.get, hl, hs]
      | none => simp [Injector.getSt, Injector.get, hl, hs, ih.1, ih.2]
